import Mathlib

/-!
Verification of the glide-finetune training script
(src/glide_finetune/glide-finetune.py) against its specification.

Shallow embedding: torch tensors are lists of rationals, the random number
generator is an explicit stream of naturals, and the side-effecting training
loop is embedded as a trace of events/actions.
-/

namespace GlideFinetune

/-! ### Timestep sampling (train_step) -/

/-- Embedding of th.randint(lo, hi, ...) applied to one raw random draw r:
the draw is reduced into the half-open interval [lo, hi). -/
def randint (lo hi : ℤ) (r : ℕ) : ℤ := lo + (r : ℤ) % (hi - lo)

/-- timesteps = th.randint(0, len(glide_diffusion.betas) - 1, (x_start.shape[0],)):
one draw per example, B = batch size (x_start.shape[0]), T = len(betas). -/
def drawTimesteps (T B : ℕ) (rng : ℕ → ℕ) : List ℤ :=
  (List.range B).map (fun i => randint 0 ((T : ℤ) - 1) (rng i))

/-! ### Loss (train_step) -/

/-- Arithmetic mean of a list of rationals (empty list gives 0). -/
def listMean (xs : List ℚ) : ℚ := xs.sum / xs.length

/-- Modelled from the spec: util.mean_flat is imported from util, which is not
part of this repository's sources; the spec describes the loss as the "mean
over all non-batch dimensions, then mean over the batch". A tensor is a list
(the batch dimension) of flattened examples. -/
def mean_flat (t : List (List ℚ)) : List ℚ := t.map listMean

/-- Pointwise (noise - epsilon) ** 2 on one flattened example. -/
def sqDiff (a b : List ℚ) : List ℚ := List.zipWith (fun x y => (x - y) ^ 2) a b

/-- util.mean_flat((noise.detach() - epsilon) ** 2).mean(): the loss that
train_step returns. -/
def trainStepLoss (noise epsilon : List (List ℚ)) : ℚ :=
  listMean (mean_flat (List.zipWith sqDiff noise epsilon))

/-- The spec's wording of the same quantity, for comparison: mean over the
batch of the per-example mean of the squared errors. -/
def specLoss (noise epsilon : List (List ℚ)) : ℚ :=
  listMean (List.zipWith (fun n e => listMean (sqDiff n e)) noise epsilon)

/-- Claim C1: every batch draws one random timestep per example (length B),
each drawn value lies in [0, T-1) where T = len(betas), so no draw is
negative or equal to T-1; moreover every value of the interval is reachable. -/
theorem c1_timesteps_range (T B : ℕ) (rng : ℕ → ℕ) (hT : 2 ≤ T) :
    (drawTimesteps T B rng).length = B ∧
    (∀ t ∈ drawTimesteps T B rng, 0 ≤ t ∧ t < (T : ℤ) - 1) ∧
    (∀ v : ℤ, 0 ≤ v → v < (T : ℤ) - 1 → ∃ r : ℕ, randint 0 ((T : ℤ) - 1) r = v) := by
  have hpos : (0 : ℤ) < (T : ℤ) - 1 := by
    have h2 : (2 : ℤ) ≤ (T : ℤ) := by exact_mod_cast hT
    omega
  refine ⟨by simp [drawTimesteps], ?_, ?_⟩
  · intro t ht
    simp only [drawTimesteps, List.mem_map, List.mem_range] at ht
    obtain ⟨i, _, rfl⟩ := ht
    unfold randint
    have h1 : 0 ≤ (rng i : ℤ) % ((T : ℤ) - 1 - 0) := Int.emod_nonneg _ (by omega)
    have h2 : (rng i : ℤ) % ((T : ℤ) - 1 - 0) < (T : ℤ) - 1 - 0 :=
      Int.emod_lt_of_pos _ (by omega)
    constructor <;> omega
  · intro v hv0 hvlt
    refine ⟨v.toNat, ?_⟩
    unfold randint
    have htn : ((v.toNat : ℤ)) = v := Int.toNat_of_nonneg hv0
    have hv : v % ((T : ℤ) - 1 - 0) = v := Int.emod_eq_of_lt hv0 (by omega)
    rw [htn, hv]
    omega

/-- Concrete instantiation of c1_timesteps_range at T = 4, B = 3. -/
theorem c1_timesteps_range_witness :
    2 ≤ 4 ∧
      ((drawTimesteps 4 3 id).length = 3 ∧
        (∀ t ∈ drawTimesteps 4 3 id, 0 ≤ t ∧ t < ((4 : ℕ) : ℤ) - 1) ∧
        (∀ v : ℤ, 0 ≤ v → v < ((4 : ℕ) : ℤ) - 1 →
          ∃ r : ℕ, randint 0 (((4 : ℕ) : ℤ) - 1) r = v)) :=
  ⟨by decide, c1_timesteps_range 4 3 id (by decide)⟩

/-- Claim C2: the training-step loss is the batch mean of the per-example mean
of the squared error between noise and prediction, and it is symmetric in
sign: swapping (noise - prediction) for (prediction - noise) gives the same
scalar. -/
theorem c2_loss_mean_and_symmetric (noise epsilon : List (List ℚ)) :
    trainStepLoss noise epsilon = specLoss noise epsilon ∧
    trainStepLoss noise epsilon = trainStepLoss epsilon noise := by
  constructor
  · simp [trainStepLoss, specLoss, mean_flat, List.map_zipWith]
  · have hsq : ∀ a b : List ℚ, sqDiff a b = sqDiff b a := by
      intro a b
      unfold sqDiff
      exact List.zipWith_comm_of_comm (fun x y => (x - y) ^ 2) (fun x y => by ring) a b
    have h2 : List.zipWith sqDiff noise epsilon = List.zipWith sqDiff epsilon noise :=
      List.zipWith_comm_of_comm sqDiff hsq noise epsilon
    unfold trainStepLoss
    rw [h2]

/-! ### Gradient events of one epoch (run_glide_finetune_epoch) -/

/-- Gradient-touching calls of run_glide_finetune_epoch: trainer.zero_grad(),
trainer.backward(current_loss) for batch i, trainer.optimize(opt). -/
inductive GEvent where
  | zeroGrad : GEvent
  | backward : ℕ → GEvent
  | optimize : ℕ → GEvent
deriving DecidableEq

/-- Loop body for batch i: trainer.backward; trainer.optimize; trainer.zero_grad. -/
def batchBlock (i : ℕ) : List GEvent :=
  [GEvent.backward i, GEvent.optimize i, GEvent.zeroGrad]

/-- The loop bodies for batches i, i+1, ..., i+n-1. -/
def traceFrom : ℕ → ℕ → List GEvent
  | _, 0 => []
  | i, n + 1 => batchBlock i ++ traceFrom (i + 1) n

/-- The gradient events of one epoch over n batches: trainer.zero_grad()
before the loop, then the n loop bodies. -/
def epochTrace (n : ℕ) : List GEvent := GEvent.zeroGrad :: traceFrom 0 n

/-- The gradients consumed by the optimizer steps: running the event trace
over an accumulated-gradient state (zeroGrad resets it to 0, batch i's
backward adds its gradient g i), recording the state at each optimize
event, in order. -/
def observeOpt (g : ℕ → ℚ) : ℚ → List GEvent → List ℚ
  | _, [] => []
  | _, GEvent.zeroGrad :: rest => observeOpt g 0 rest
  | s, GEvent.backward i :: rest => observeOpt g (s + g i) rest
  | s, GEvent.optimize _ :: rest => s :: observeOpt g s rest

/-- The accumulated gradient at the moment of each backward event, in order. -/
def observeBwd (g : ℕ → ℚ) : ℚ → List GEvent → List ℚ
  | _, [] => []
  | _, GEvent.zeroGrad :: rest => observeBwd g 0 rest
  | s, GEvent.backward i :: rest => s :: observeBwd g (s + g i) rest
  | s, GEvent.optimize _ :: rest => observeBwd g s rest

/-- Whether an event is an optimizer step. -/
def isOpt : GEvent → Bool
  | GEvent.zeroGrad => false
  | GEvent.backward _ => false
  | GEvent.optimize _ => true

/-- Number of optimizer steps in a trace. -/
def countOpt (l : List GEvent) : ℕ := (l.filter isOpt).length

/-- Checks that every optimize event is immediately followed by a zeroGrad. -/
def optThenZero : List GEvent → Bool
  | [] => true
  | GEvent.zeroGrad :: rest => optThenZero rest
  | GEvent.backward _ :: rest => optThenZero rest
  | [GEvent.optimize _] => false
  | GEvent.optimize _ :: GEvent.zeroGrad :: rest => optThenZero (GEvent.zeroGrad :: rest)
  | GEvent.optimize _ :: GEvent.backward _ :: _ => false
  | GEvent.optimize _ :: GEvent.optimize _ :: _ => false

lemma traceFrom_succ (i m : ℕ) :
    traceFrom i (m + 1) =
      GEvent.backward i :: GEvent.optimize i :: GEvent.zeroGrad :: traceFrom (i + 1) m := rfl

lemma observeOpt_traceFrom (g : ℕ → ℚ) :
    ∀ n i, observeOpt g 0 (traceFrom i n) = (List.range n).map (fun j => g (i + j)) := by
  intro n
  induction n with
  | zero => intro i; simp [traceFrom, observeOpt]
  | succ m ih =>
    intro i
    have harith : ∀ j : ℕ, i + (j + 1) = (i + 1) + j := by omega
    rw [traceFrom_succ]
    simp only [observeOpt, zero_add, List.range_succ_eq_map, List.map_cons, List.map_map]
    rw [ih (i + 1)]
    refine congrArg₂ _ (by rw [Nat.add_zero]) ?_
    apply List.map_congr_left
    intro j _
    simp [Function.comp, harith j]

lemma observeBwd_traceFrom (g : ℕ → ℚ) :
    ∀ n i, observeBwd g 0 (traceFrom i n) = List.replicate n 0 := by
  intro n
  induction n with
  | zero => intro i; simp [traceFrom, observeBwd]
  | succ m ih =>
    intro i
    rw [traceFrom_succ]
    simp only [observeBwd, List.replicate_succ]
    rw [ih (i + 1)]

lemma countOpt_traceFrom : ∀ n i, countOpt (traceFrom i n) = n := by
  intro n
  induction n with
  | zero => intro i; simp [traceFrom, countOpt]
  | succ m ih =>
    intro i
    rw [traceFrom_succ]
    simp only [countOpt, List.filter, isOpt, List.length_cons] at *
    rw [ih (i + 1)]

lemma optThenZero_traceFrom : ∀ n i, optThenZero (traceFrom i n) = true := by
  intro n
  induction n with
  | zero => intro i; simp [traceFrom, optThenZero]
  | succ m ih =>
    intro i
    rw [traceFrom_succ]
    simp only [optThenZero]
    exact ih (i + 1)

/-- Claim C3: over an epoch of n batches, exactly one optimizer step occurs
per batch; the gradient consumed by the i-th step is exactly batch i's
gradient (no accumulation across two distinct batches); the accumulated
gradient is zero at every backward (it was zeroed since the previous step);
and every optimizer step is immediately followed by a zero_grad. -/
theorem c3_one_step_per_batch_no_accumulation (g : ℕ → ℚ) (n : ℕ) :
    countOpt (epochTrace n) = n ∧
    observeOpt g 0 (epochTrace n) = (List.range n).map g ∧
    observeBwd g 0 (epochTrace n) = List.replicate n 0 ∧
    optThenZero (epochTrace n) = true := by
  refine ⟨?_, ?_, ?_, ?_⟩
  · simp only [epochTrace, countOpt, List.filter, isOpt]
    exact countOpt_traceFrom n 0
  · simp only [epochTrace, observeOpt]
    rw [observeOpt_traceFrom g n 0]
    apply List.map_congr_left
    intro j _
    rw [Nat.zero_add]
  · simp only [epochTrace, observeBwd]
    exact observeBwd_traceFrom g n 0
  · simp only [epochTrace, optThenZero]
    exact optThenZero_traceFrom n 0

/-! ### Observable actions of the training loop
(run_glide_finetune_epoch / run_glide_finetune) -/

/-- Observable side effects of the training loop: a training step on batch k,
a preview-sample file write at iteration k, a checkpoint write named by
iteration k, and a wandb_run.log call with a record holding the listed keys. -/
inductive Action where
  | trainStep : ℕ → Action
  | sampleWrite : ℕ → Action
  | saveCkpt : ℕ → Action
  | logCall : List String → Action
deriving DecidableEq

/-- Keys of the wandb log record built for iteration k with sample/log
frequency f: "iter"/"loss" are added when k % 10 is truthy (nonzero), and
"iter"/"samples" when k > 0 and k % f == 0 (a repeated "iter" key collapses
in the python dict; membership below is what the claims consult). -/
def recordKeys (f k : ℕ) : List String :=
  (if k % 10 ≠ 0 then ["iter", "loss"] else []) ++
    (if 0 < k ∧ k % f = 0 then ["iter", "samples"] else [])

/-- Actions of one loop body at iteration k (in source order: train step,
conditional sample write, conditional checkpoint save, the wandb log call). -/
def iterActions (f k : ℕ) : List Action :=
  [Action.trainStep k] ++
    (if 0 < k ∧ k % f = 0 then [Action.sampleWrite k] else []) ++
      (if k % 1000 = 0 ∧ 0 < k then [Action.saveCkpt k] else []) ++
        [Action.logCall (recordKeys f k)]

/-- Actions of one epoch over L batches: the loop bodies for train_idx = 0,
..., L-1, then the final save_model(glide_model, checkpoints_dir, train_idx)
where train_idx has its last loop value L-1. -/
def epochActions (f L : ℕ) : List Action :=
  ((List.range L).flatMap (iterActions f)) ++ [Action.saveCkpt (L - 1)]

/-- A list repeated n times (for epoch in range(num_epochs): ...). -/
def repList {α : Type} : ℕ → List α → List α
  | 0, _ => []
  | n + 1, l => l ++ repList n l

/-- Actions of a whole run of E epochs, each epoch over L batches. -/
def runActions (f E L : ℕ) : List Action := repList E (epochActions f L)

/-- The iteration index a saveCkpt action was named by, if any. -/
def saveIdx : Action → Option ℕ
  | Action.saveCkpt k => some k
  | Action.trainStep _ => none
  | Action.sampleWrite _ => none
  | Action.logCall _ => none

/-- The sequence of checkpoint indices written by a list of actions. -/
def saveIndices (l : List Action) : List ℕ := l.filterMap saveIdx

/-- The checkpoint filename for iteration k: "glide-ft-<k>.pt". -/
def ckptName (k : ℕ) : String := "glide-ft-" ++ toString k ++ ".pt"

/-- How many times the run writes the checkpoint file named by index k. -/
def writeCount (f E L k : ℕ) : ℕ := (saveIndices (runActions f E L)).count k

/-- The write count the C4 claim predicts for index k over a whole run:
once for each positive multiple of 1000 among the iteration indices, and
once more at run end. -/
def c4Claimed (L k : ℕ) : ℕ :=
  (if 0 < k ∧ k % 1000 = 0 ∧ k < L then 1 else 0) + (if k = L - 1 then 1 else 0)

/-- Whether an action is a wandb log call. -/
def isLogCall : Action → Bool
  | Action.logCall _ => true
  | Action.trainStep _ => false
  | Action.sampleWrite _ => false
  | Action.saveCkpt _ => false

/-- Number of wandb log calls in a list of actions. -/
def logCallCount (l : List Action) : ℕ := (l.filter isLogCall).length

lemma saveIndices_append (l1 l2 : List Action) :
    saveIndices (l1 ++ l2) = saveIndices l1 ++ saveIndices l2 := by
  simp [saveIndices, List.filterMap_append]

lemma saveIndices_iterActions (f k : ℕ) :
    saveIndices (iterActions f k) =
      if k % 1000 = 0 ∧ 0 < k then [k] else [] := by
  simp only [iterActions, saveIndices_append]
  split_ifs with h1 h2 h2 <;> simp [saveIndices, List.filterMap, saveIdx]

lemma saveIndices_flatMap (l : List ℕ) (g : ℕ → List Action) :
    saveIndices (l.flatMap g) = l.flatMap (fun x => saveIndices (g x)) := by
  induction l with
  | nil => simp [saveIndices]
  | cons a t ih => simp [List.flatMap_cons, saveIndices_append, ih]

lemma flatMap_if_singleton (L : ℕ) (p : ℕ → Bool) :
    (List.range L).flatMap (fun k => if p k = true then [k] else []) =
      (List.range L).filter p := by
  induction L with
  | zero => simp
  | succ n ih =>
    rw [List.range_succ, List.flatMap_append, List.filter_append, ih]
    congr 1
    by_cases h : p n = true <;> simp [List.filter, h]

lemma count_filter_range (L k : ℕ) (p : ℕ → Bool) :
    ((List.range L).filter p).count k = if p k = true ∧ k < L then 1 else 0 := by
  induction L with
  | zero => simp
  | succ n ih =>
    rw [List.range_succ, List.filter_append, List.count_append, ih]
    have hlast : (List.filter p [n]).count k = if p k = true ∧ k = n then 1 else 0 := by
      by_cases hk : k = n
      · subst hk
        by_cases hp : p k = true <;> simp [List.filter, hp, List.count_cons]
      · by_cases hp : p n = true <;>
          simp [List.filter, hp, List.count_cons, List.count_nil, hk, Ne.symm hk]
    rw [hlast]
    by_cases hp : p k = true
    · simp only [hp, true_and]
      split_ifs <;> omega
    · simp [hp]

lemma count_repList {n : ℕ} (l : List ℕ) (k : ℕ) :
    (repList n l).count k = n * l.count k := by
  induction n with
  | zero => simp [repList]
  | succ m ih =>
    simp only [repList, List.count_append, ih, Nat.succ_mul]
    omega

lemma repList_saveIndices (n : ℕ) (l : List Action) :
    saveIndices (repList n l) = repList n (saveIndices l) := by
  induction n with
  | zero => simp [repList, saveIndices]
  | succ m ih => simp [repList, saveIndices_append, ih]

/-- Per-epoch checkpoint-write count: index k is written once if it is a
positive multiple of 1000 below L, plus once if it equals the final index
L - 1 (both can happen, giving two writes of the same file in one epoch). -/
lemma count_saveIndices_epoch (f L k : ℕ) :
    (saveIndices (epochActions f L)).count k =
      (if 0 < k ∧ k % 1000 = 0 ∧ k < L then 1 else 0) +
        (if k = L - 1 then 1 else 0) := by
  rw [epochActions, saveIndices_append, List.count_append, saveIndices_flatMap]
  have hb : ∀ x, saveIndices (iterActions f x) =
      if (decide (x % 1000 = 0) && decide (0 < x)) = true then [x] else [] := by
    intro x
    rw [saveIndices_iterActions]
    split_ifs with h1 h2 h2 <;> simp_all
  have : (List.range L).flatMap (fun x => saveIndices (iterActions f x)) =
      (List.range L).filter (fun x => decide (x % 1000 = 0) && decide (0 < x)) := by
    rw [← flatMap_if_singleton L (fun x => decide (x % 1000 = 0) && decide (0 < x))]
    exact List.flatMap_congr (fun x _ => hb x)
  rw [this, count_filter_range]
  have hsingle : (saveIndices [Action.saveCkpt (L - 1)]).count k =
      if k = L - 1 then 1 else 0 := by
    simp [saveIndices, List.filterMap, saveIdx, List.count_cons, List.count_nil]
    split_ifs with h <;> simp_all
  rw [hsingle]
  by_cases h1 : k % 1000 = 0 <;> by_cases h2 : 0 < k <;> by_cases h3 : k < L <;>
    simp [h1, h2, h3]

/-! ### Driver (run_glide_finetune) -/

/-- Number of batches one epoch yields: the DataLoader default
(drop_last=False) gives ceil(datasetLen / batchSize). -/
def numBatches (datasetLen batchSize : ℕ) : ℕ := (datasetLen + batchSize - 1) / batchSize

/-- run_glide_finetune up to its observable loop actions: after dataset
construction it asserts len(dataset) > 0 with message "Dataset is empty";
only when the assertion passes does it build the dataloader and optimizer
and run the epochs. -/
def runDriver (datasetLen batchSize f numEpochs : ℕ) : Except String (List Action) :=
  if 0 < datasetLen then
    Except.ok (runActions f numEpochs (numBatches datasetLen batchSize))
  else Except.error "Dataset is empty"

/-- Claim C4 counterexample: with 2 epochs of 2 batches each (and log
frequency 100), the file glide-ft-1.pt is written twice — once at the end of
each epoch — while the claim predicts a single write for index 1 (1 is not a
positive multiple of 1000, so only the one run-end write is allowed); the
actual and claimed write counts differ, refuting the claim at this input. -/
theorem c4_counterexample :
    writeCount 100 2 2 1 = 2 ∧ c4Claimed 2 1 = 1 ∧
      writeCount 100 2 2 1 ≠ c4Claimed 2 1 := by decide

/-- Claim C4 amended: checkpoint writes repeat per epoch, not per run.
Within each epoch of L batches, glide-ft-<k>.pt is written once for every
batch index k that is a positive multiple of 1000 below L, plus once more at
epoch end for k = L-1; a run of E epochs repeats these writes E times. -/
theorem c4_amended (f E L k : ℕ) (hL : 1 ≤ L) :
    (saveIndices (epochActions f L)).count k =
      (if 0 < k ∧ k % 1000 = 0 ∧ k < L then 1 else 0) +
        (if k = L - 1 then 1 else 0) ∧
    writeCount f E L k = E * (saveIndices (epochActions f L)).count k := by
  constructor
  · exact count_saveIndices_epoch f L k
  · unfold writeCount runActions
    rw [repList_saveIndices, count_repList]

/-- Concrete instantiation of c4_amended at f = 100, E = 2, L = 2, k = 1. -/
theorem c4_amended_witness :
    1 ≤ 2 ∧
      ((saveIndices (epochActions 100 2)).count 1 =
          (if 0 < 1 ∧ 1 % 1000 = 0 ∧ 1 < 2 then 1 else 0) +
            (if 1 = 2 - 1 then 1 else 0) ∧
        writeCount 100 2 2 1 = 2 * (saveIndices (epochActions 100 2)).count 1) :=
  ⟨by decide, c4_amended 100 2 2 1 (by decide)⟩

/-- Claim C5 counterexample: at iteration 10 (with the default log frequency
100) the record passed to wandb_run.log is empty — the iteration's single
log call is wandb_run.log({}), carrying no "loss" field — because the code
guards the loss fields with `if train_idx % 10:`, which is falsy exactly on
multiples of 10; this refutes "on every iteration the scalar loss is
logged". -/
theorem c5_counterexample :
    recordKeys 100 10 = [] ∧ "loss" ∉ recordKeys 100 10 ∧
      logCallCount (iterActions 100 10) = 1 ∧
      Action.logCall [] ∈ iterActions 100 10 := by decide

/-- Claim C5 amended: the tracker's log call is made exactly once per
iteration and the record may be empty (as at iteration 0); the scalar loss
is included exactly on the iterations whose index is not divisible by 10. -/
theorem c5_amended (f k : ℕ) (hf : 0 < f) :
    logCallCount (iterActions f k) = 1 ∧
    ("loss" ∈ recordKeys f k ↔ ¬ k % 10 = 0) ∧
    recordKeys f 0 = [] := by
  refine ⟨?_, ?_, ?_⟩
  · unfold logCallCount iterActions
    rw [List.filter_append, List.filter_append, List.filter_append]
    split_ifs <;> simp [isLogCall, List.filter]
  · unfold recordKeys
    by_cases h : k % 10 = 0
    · simp only [h, ne_eq, not_true_eq_false, if_false, List.nil_append]
      constructor
      · intro hm
        split_ifs at hm with h2
        · simp at hm
        · simp at hm
      · intro hm
        exact hm.elim
    · simp [h]
  · simp [recordKeys]

/-- Concrete instantiation of c5_amended at f = 100, k = 7. -/
theorem c5_amended_witness :
    0 < 100 ∧
      (logCallCount (iterActions 100 7) = 1 ∧
        ("loss" ∈ recordKeys 100 7 ↔ ¬ 7 % 10 = 0) ∧
        recordKeys 100 0 = []) :=
  ⟨by decide, c5_amended 100 7 (by decide)⟩

/-- Claim C6: a zero-length dataset makes the driver fail fast with the
descriptive message "Dataset is empty" before any loop action (no training
step, sample write or checkpoint write is produced); a non-empty dataset
raises no such error at that point. -/
theorem c6_empty_dataset_guard (datasetLen batchSize f numEpochs : ℕ) :
    (datasetLen = 0 →
      runDriver datasetLen batchSize f numEpochs = Except.error "Dataset is empty") ∧
    (0 < datasetLen →
      ∃ acts, runDriver datasetLen batchSize f numEpochs = Except.ok acts) := by
  constructor
  · intro h
    subst h
    simp [runDriver]
  · intro h
    simp only [runDriver, if_pos h]
    exact ⟨_, rfl⟩

/-- Concrete instantiation of c6_empty_dataset_guard at dataset sizes 0 and 5. -/
theorem c6_empty_dataset_guard_witness :
    runDriver 0 1 100 1 = Except.error "Dataset is empty" ∧
    ∃ acts, runDriver 5 2 100 1 = Except.ok acts :=
  ⟨(c6_empty_dataset_guard 0 1 100 1).1 rfl,
    (c6_empty_dataset_guard 5 2 100 1).2 (by decide)⟩

/-- Claim C10: every epoch ends by writing a checkpoint named by its last
batch index: the last checkpoint index of an epoch over L batches is L-1,
every epoch of the run repeats the same writes (E times the per-epoch count,
which is at least one for index L-1), so each epoch rewrites the same file
glide-ft-<L-1>.pt, overwriting the previous epoch's final checkpoint. -/
theorem c10_epoch_end_checkpoint (f E L : ℕ) (hL : 1 ≤ L) :
    ((saveIndices (epochActions f L)).map ckptName).getLast? = some (ckptName (L - 1)) ∧
    1 ≤ (saveIndices (epochActions f L)).count (L - 1) ∧
    writeCount f E L (L - 1) = E * (saveIndices (epochActions f L)).count (L - 1) ∧
    E ≤ writeCount f E L (L - 1) := by
  have hcount : 1 ≤ (saveIndices (epochActions f L)).count (L - 1) := by
    rw [count_saveIndices_epoch]
    split_ifs <;> omega
  have hrun : writeCount f E L (L - 1) =
      E * (saveIndices (epochActions f L)).count (L - 1) := by
    unfold writeCount runActions
    rw [repList_saveIndices, count_repList]
  refine ⟨?_, hcount, hrun, ?_⟩
  · rw [epochActions, saveIndices_append]
    have h2 : saveIndices [Action.saveCkpt (L - 1)] = [L - 1] := rfl
    rw [h2, List.map_append]
    exact List.getLast?_concat _
  · rw [hrun]
    calc E = E * 1 := (Nat.mul_one E).symm
    _ ≤ E * (saveIndices (epochActions f L)).count (L - 1) :=
      Nat.mul_le_mul_left E hcount

/-- Concrete instantiation of c10_epoch_end_checkpoint at f = 100, E = 3, L = 2. -/
theorem c10_epoch_end_checkpoint_witness :
    1 ≤ 2 ∧
      (((saveIndices (epochActions 100 2)).map ckptName).getLast? = some (ckptName (2 - 1)) ∧
        1 ≤ (saveIndices (epochActions 100 2)).count (2 - 1) ∧
        writeCount 100 3 2 (2 - 1) = 3 * (saveIndices (epochActions 100 2)).count (2 - 1) ∧
        3 ≤ writeCount 100 3 2 (2 - 1)) :=
  ⟨by decide, c10_epoch_end_checkpoint 100 3 2 (by decide)⟩

/-! ### Channel split of the model output (train_step) -/

/-- Number of chunks th.split(t, chunk, dim=1) produces on a dimension of
size total: ceil(total / chunk). -/
def numChunks (total chunk : ℕ) : ℕ := (total + chunk - 1) / chunk

/-- Widths of the chunks th.split(t, chunk, dim=1) produces: every chunk has
width chunk except a possibly smaller final one. -/
def splitSizes (total chunk : ℕ) : List ℕ :=
  (List.range (numChunks total chunk)).map (fun i => min chunk (total - i * chunk))

/-- Tuple unpacking of a list into exactly two values, as in
epsilon, _ = th.split(...): any other arity raises a ValueError. -/
def unpack2 {α : Type} : List α → Except String (α × α)
  | [] => Except.error "not enough values to unpack"
  | [_] => Except.error "not enough values to unpack"
  | [a, b] => Except.ok (a, b)
  | _ :: _ :: _ :: _ => Except.error "too many values to unpack"

/-- Shape of a 4-dimensional tensor (batch, channels, height, width), as in
B, C = x_t.shape[:2] with x_t of shape (B, C, H, W). -/
structure Shape4 where
  batch : ℕ
  channels : ℕ
  height : ℕ
  width : ℕ
deriving DecidableEq

/-- th.split(t, c, dim=1) on a tensor of shape s: every chunk keeps all
dimensions of s except dim 1, whose sizes are splitSizes s.channels c. -/
def splitShapes (s : Shape4) (c : ℕ) : List Shape4 :=
  (splitSizes s.channels c).map (fun w => Shape4.mk s.batch w s.height s.width)

/-- epsilon, _ = th.split(model_output, C, dim=1) in train_step, at shape
level: the model output has shape s = (B, outChannels, H, W) and is split
into chunks of channel width c = C, then tuple-unpacked into exactly two
tensors (the predicted noise and the ignored second component). -/
def epsSplitShapes (s : Shape4) (c : ℕ) : Except String (Shape4 × Shape4) :=
  unpack2 (splitShapes s c)

/-- Whether an Except value is a success. -/
def isOkE {α : Type} : Except String α → Bool
  | Except.ok _ => true
  | Except.error _ => false

lemma unpack2_isOk {α : Type} (l : List α) :
    isOkE (unpack2 l) = true ↔ l.length = 2 := by
  match l with
  | [] => simp [unpack2, isOkE]
  | [a] => simp [unpack2, isOkE]
  | [a, b] => simp [unpack2, isOkE]
  | a :: b :: d :: t => simp [unpack2, isOkE]

lemma numChunks_eq_two (c out : ℕ) (hc : 0 < c) :
    numChunks out c = 2 ↔ (c < out ∧ out ≤ 2 * c) := by
  unfold numChunks
  constructor
  · intro h
    have h1 : 2 * c ≤ out + c - 1 :=
      (Nat.le_div_iff_mul_le hc).mp (by omega)
    have h2 : out + c - 1 < 3 * c :=
      (Nat.div_lt_iff_lt_mul hc).mp (by omega)
    omega
  · intro h
    have ha : 2 ≤ (out + c - 1) / c := (Nat.le_div_iff_mul_le hc).mpr (by omega)
    have hb : (out + c - 1) / c < 3 := (Nat.div_lt_iff_lt_mul hc).mpr (by omega)
    omega

lemma splitSizes_two (c out : ℕ) (hc : 0 < c) (h1 : c < out) (h2 : out ≤ 2 * c) :
    splitSizes out c = [c, out - c] := by
  have hn : numChunks out c = 2 := (numChunks_eq_two c out hc).mpr ⟨h1, h2⟩
  rw [splitSizes, hn]
  have hr : List.range 2 = [0, 1] := rfl
  rw [hr]
  simp only [List.map_cons, List.map_nil, Nat.zero_mul, Nat.one_mul, Nat.sub_zero]
  have hm1 : min c out = c := Nat.min_eq_left (Nat.le_of_lt h1)
  have hm2 : min c (out - c) = out - c := Nat.min_eq_right (by omega)
  rw [hm1, hm2]

lemma splitShapes_two (B H W c out : ℕ) (hc : 0 < c) (h1 : c < out) (h2 : out ≤ 2 * c) :
    splitShapes (Shape4.mk B out H W) c =
      [Shape4.mk B c H W, Shape4.mk B (out - c) H W] := by
  unfold splitShapes
  rw [show (Shape4.mk B out H W).channels = out from rfl,
    splitSizes_two c out hc h1 h2]
  rfl

/-- Claim C7 counterexample: a batch with image tensor of shape (1, 2, 4, 4)
(so C = 2) and a model output of 3 channels — not 2C = 4 — makes
th.split(model_output, 2, dim=1) yield chunks of shapes (1, 2, 4, 4) and
(1, 1, 4, 4); the tuple unpacking epsilon, _ = ... succeeds, so no
configuration error is raised at all (neither before training starts nor
later), refuting the claim that a mismatched channel count raises. -/
theorem c7_counterexample :
    epsSplitShapes (Shape4.mk 1 3 4 4) 2 =
      Except.ok (Shape4.mk 1 2 4 4, Shape4.mk 1 1 4 4) ∧
    (3 : ℕ) ≠ 2 * 2 ∧
    isOkE (epsSplitShapes (Shape4.mk 1 3 4 4) 2) = true :=
  ⟨rfl, by decide, rfl⟩

/-- Claim C7 amended: when the model output has shape (B, 2C, H, W) the split
yields exactly two tensors each of shape (B, C, H, W), the first taken as the
predicted noise and the second ignored; but a mismatched channel count does
not reliably raise: the split-and-unpack succeeds exactly when
C < outChannels ≤ 2C, so an output channel count strictly between C and 2C is
accepted silently with a narrower ignored chunk of shape (B, out-C, H, W),
and only counts at most C or above 2C raise — during the first training
step, not before training starts. -/
theorem c7_amended (B H W c out : ℕ) (hc : 0 < c) :
    (out = 2 * c →
      epsSplitShapes (Shape4.mk B out H W) c =
        Except.ok (Shape4.mk B c H W, Shape4.mk B c H W)) ∧
    (isOkE (epsSplitShapes (Shape4.mk B out H W) c) = true ↔
      (c < out ∧ out ≤ 2 * c)) ∧
    (c < out → out ≤ 2 * c →
      epsSplitShapes (Shape4.mk B out H W) c =
        Except.ok (Shape4.mk B c H W, Shape4.mk B (out - c) H W)) := by
  have key : ∀ h1 : c < out, out ≤ 2 * c →
      epsSplitShapes (Shape4.mk B out H W) c =
        Except.ok (Shape4.mk B c H W, Shape4.mk B (out - c) H W) := by
    intro h1 h2
    unfold epsSplitShapes
    rw [splitShapes_two B H W c out hc h1 h2]
    rfl
  refine ⟨?_, ?_, key⟩
  · intro h
    subst h
    have := key (by omega) (by omega)
    rw [this]
    have h2c : 2 * c - c = c := by omega
    rw [h2c]
  · unfold epsSplitShapes
    rw [unpack2_isOk]
    have hlen : (splitShapes (Shape4.mk B out H W) c).length = numChunks out c := by
      simp [splitShapes, splitSizes]
    rw [hlen]
    exact numChunks_eq_two c out hc

/-- Concrete instantiation of c7_amended at B = 1, H = W = 4, C = 2,
outChannels = 4. -/
theorem c7_amended_witness :
    0 < 2 ∧
      ((4 = 2 * 2 →
        epsSplitShapes (Shape4.mk 1 4 4 4) 2 =
          Except.ok (Shape4.mk 1 2 4 4, Shape4.mk 1 2 4 4)) ∧
      (isOkE (epsSplitShapes (Shape4.mk 1 4 4 4) 2) = true ↔
        (2 < 4 ∧ 4 ≤ 2 * 2)) ∧
      (2 < 4 → 4 ≤ 2 * 2 →
        epsSplitShapes (Shape4.mk 1 4 4 4) 2 =
          Except.ok (Shape4.mk 1 2 4 4, Shape4.mk 1 (4 - 2) 4 4))) :=
  ⟨by decide, c7_amended 1 4 4 2 4 (by decide)⟩

/-! ### Optimizer construction (run_glide_finetune) -/

/-- A model parameter tensor, abstracted to an identity and its
requires_grad flag. -/
structure ModelParam where
  id : ℕ
  requiresGrad : Bool
deriving DecidableEq

/-- The optimizer the driver builds: th.optim.SGD(params, lr, momentum) or
th.optim.AdamW(params, lr, weight_decay). -/
inductive Optimizer where
  | sgd : List ModelParam → ℚ → ℚ → Optimizer
  | adamw : List ModelParam → ℚ → ℚ → Optimizer
deriving DecidableEq

/-- The parameter list an optimizer was constructed over. -/
def Optimizer.paramList : Optimizer → List ModelParam
  | Optimizer.sgd ps _ _ => ps
  | Optimizer.adamw ps _ _ => ps

/-- The learning rate an optimizer was constructed with. -/
def Optimizer.rate : Optimizer → ℚ
  | Optimizer.sgd _ r _ => r
  | Optimizer.adamw _ r _ => r

/-- Optimizer setup of run_glide_finetune: SGD([x for x in params if
x.requires_grad], lr=learning_rate, momentum=0.9) when use_sgd, else
AdamW([x for x in params if x.requires_grad], lr=learning_rate,
weight_decay=0.0). -/
def makeOptimizer (useSgd : Bool) (ps : List ModelParam) (learningRate : ℚ) : Optimizer :=
  if useSgd then Optimizer.sgd (ps.filter (fun p => p.requiresGrad)) learningRate (9 / 10)
  else Optimizer.adamw (ps.filter (fun p => p.requiresGrad)) learningRate 0

/-- Claim C8: the optimizer is built over exactly the parameters with
requires_grad set and no others, at the configured learning rate; the SGD
toggle selects SGD with momentum 0.9, otherwise AdamW with weight decay 0. -/
theorem c8_optimizer_selection (useSgd : Bool) (ps : List ModelParam) (r : ℚ) :
    (∀ p, p ∈ (makeOptimizer useSgd ps r).paramList ↔ (p ∈ ps ∧ p.requiresGrad = true)) ∧
    (makeOptimizer useSgd ps r).rate = r ∧
    makeOptimizer true ps r = Optimizer.sgd (ps.filter (fun p => p.requiresGrad)) r (9 / 10) ∧
    makeOptimizer false ps r = Optimizer.adamw (ps.filter (fun p => p.requiresGrad)) r 0 := by
  refine ⟨?_, ?_, ?_, ?_⟩
  · intro p
    cases useSgd <;> simp [makeOptimizer, Optimizer.paramList, List.mem_filter]
  · cases useSgd <;> simp [makeOptimizer, Optimizer.rate]
  · simp [makeOptimizer]
  · simp [makeOptimizer]

/-! ### Iteration counter across epochs (run_glide_finetune) -/

/-- The sequence of train_idx values the run sees, batch after batch: each
epoch re-enumerates its dataloader from 0 (enumerate(dataloader)), so the
whole run of E epochs over L batches each is E repetitions of 0, ..., L-1. -/
def iterIndices (E L : ℕ) : List ℕ := repList E (List.range L)

lemma length_repList {α : Type} (n : ℕ) (l : List α) :
    (repList n l).length = n * l.length := by
  induction n with
  | zero => simp [repList]
  | succ m ih =>
    simp only [repList, List.length_append, ih, Nat.succ_mul]
    omega

/-- Claim C9 counterexample: with 2 epochs of 2 batches each, the iteration
counter is mutated once per batch (4 values) but takes the values
0, 1, 0, 1 — it resets to 0 at the epoch boundary instead of only on
process restart, so the sequence is not monotonically increasing across the
whole run. -/
theorem c9_counterexample :
    iterIndices 2 2 = [0, 1, 0, 1] ∧
      (iterIndices 2 2).length = 2 * 2 ∧
      ¬ List.Chain' (fun a b => a ≤ b) (iterIndices 2 2) := by
  have hval : iterIndices 2 2 = [0, 1, 0, 1] := rfl
  refine ⟨hval, by rw [hval]; rfl, ?_⟩
  intro h
  rw [hval] at h
  simp [List.chain'_cons] at h

/-- Claim C9 amended: the counter is mutated once per batch (E * L values in
a run), increases strictly within one epoch starting from 0, but resets to 0
at every epoch boundary, so across a run of at least two epochs the sequence
is not monotonically increasing. -/
theorem c9_amended (E L : ℕ) (hE : 2 ≤ E) (hL : 2 ≤ L) :
    (iterIndices E L).length = E * L ∧
    List.Chain' (fun a b => a < b) (List.range L) ∧
    (iterIndices E L).head? = some 0 ∧
    ¬ List.Chain' (fun a b => a ≤ b) (iterIndices E L) := by
  obtain ⟨E2, rfl⟩ : ∃ E2, E = E2 + 2 := ⟨E - 2, by omega⟩
  obtain ⟨L2, rfl⟩ : ∃ L2, L = L2 + 2 := ⟨L - 2, by omega⟩
  have hhead : (repList (E2 + 1) (List.range (L2 + 2))).head? = some 0 := by
    show ((List.range (L2 + 2)) ++ repList E2 (List.range (L2 + 2))).head? = some 0
    rw [List.range_succ_eq_map]
    rfl
  refine ⟨?_, ?_, ?_, ?_⟩
  · rw [iterIndices, length_repList, List.length_range]
  · exact (List.pairwise_lt_range _).chain'
  · show ((List.range (L2 + 2)) ++ repList (E2 + 1) (List.range (L2 + 2))).head? = some 0
    rw [List.range_succ_eq_map]
    rfl
  · intro hchain
    have hsplit : iterIndices (E2 + 2) (L2 + 2) =
        (List.range (L2 + 2)) ++ repList (E2 + 1) (List.range (L2 + 2)) := rfl
    rw [hsplit, List.chain'_append] at hchain
    obtain ⟨_, _, hjun⟩ := hchain
    have hlast : (List.range (L2 + 2)).getLast? = some (L2 + 1) := by
      rw [List.range_succ]
      exact List.getLast?_concat _
    have := hjun (L2 + 1) hlast 0 hhead
    omega

/-- Concrete instantiation of c9_amended at E = 2, L = 2. -/
theorem c9_amended_witness :
    2 ≤ 2 ∧ 2 ≤ 2 ∧
      ((iterIndices 2 2).length = 2 * 2 ∧
        List.Chain' (fun a b => a < b) (List.range 2) ∧
        (iterIndices 2 2).head? = some 0 ∧
        ¬ List.Chain' (fun a b => a ≤ b) (iterIndices 2 2)) :=
  ⟨by decide, by decide, c9_amended 2 2 (by decide) (by decide)⟩

end GlideFinetune
